import Mathlib

/-!
Verification of the changelog parsing and resolution core of the
pi-extension-dev repository (`src/tools/changelog-tool.ts`).

The embedding models JavaScript strings as Lean `String` / `List Char`.
Notes on fidelity:
* JS `string.length` counts UTF-16 code units while Lean counts code
  points; the two agree on all basic-multilingual-plane text, which is the
  only kind the program's documents and the claims use.
* JS `\s`, `trim()` and the multiline `^`/`$` anchors additionally accept
  some exotic Unicode whitespace / line terminators; the model covers the
  ASCII whitespace set plus NBSP, and `\n` line boundaries, which is
  exhaustive for changelog documents.
* JS `Number(...)` on dot-free version components is modelled exactly for
  the shapes that occur (whitespace trimming, empty string to 0, optional
  sign followed by a decimal digit run); hex/binary/exponent/`Infinity`
  forms map to NaN in the model, and arbitrary-precision `Int` stands in
  for IEEE doubles (the program only compares small version components).
-/

set_option maxRecDepth 20000

/-- Characters matched by JS `\s` / removed by `String.prototype.trim`
(ASCII whitespace plus no-break space). -/
def isJsWs (c : Char) : Bool :=
  c == ' ' || c == '\t' || c == '\n' || c == '\r' || c == '\x0b' || c == '\x0c' || c == ' '

/-- JS `String.prototype.trim` on a character list. -/
def jsTrimList (cs : List Char) : List Char :=
  ((cs.dropWhile isJsWs).reverse.dropWhile isJsWs).reverse

/-- JS `String.prototype.split` with a single-character separator:
always returns at least one (possibly empty) piece. -/
def splitOnChar (sep : Char) : List Char → List (List Char)
  | [] => [[]]
  | c :: rest =>
    match splitOnChar sep rest with
    | [] => [[c]]
    | h :: t => if c == sep then [] :: h :: t else (c :: h) :: t

/-- JS `Array.prototype.join` with a single-character separator. -/
def joinChar (sep : Char) : List (List Char) → List Char
  | [] => []
  | [l] => l
  | l :: ls => l ++ sep :: joinChar sep ls

/-- The version-shape test `/^v?\d+\.\d+/.test(version)` from
`parseChangelogEntries`: optional leading `v`, one or more digits, a dot,
one or more digits, as a prefix of the token. -/
def versionShape (s : String) : Bool :=
  let cs := match s.data with
    | 'v' :: rest => rest
    | l => l
  match cs.takeWhile Char.isDigit, cs.dropWhile Char.isDigit with
  | [], _ => false
  | _ :: _, '.' :: c :: _ => c.isDigit
  | _, _ => false

/-- A character admissible in the bare-token branch `[^[\s]+`. -/
def isBareChar (c : Char) : Bool :=
  c != '[' && !isJsWs c

/-- The token captured by
`line.trim().match(/^#+\s*(?:\[([^\]]+)\]|([^[\s]+))/)`, i.e.
`versionMatch[1] || versionMatch[2]`, or `none` when the regex does not
match.  The greedy run of `#` with zero-or-more whitespace is attempted
first (`primary`); when that fails and the `#` run has length at least
two, the regex backtracks one `#` and the bare branch then captures a
token beginning with `#` (the `fallback` arm). -/
def headingToken (line : List Char) : Option String :=
  let cs := jsTrimList line
  let n := (cs.takeWhile (fun c => c == '#')).length
  if n == 0 then none
  else
    let rest := (cs.drop n).dropWhile isJsWs
    let primary : Option (List Char) :=
      match rest with
      | '[' :: tl =>
        let inner := tl.takeWhile (fun c => c != ']')
        if inner.length < tl.length && !inner.isEmpty then some inner else none
      | [] => none
      | _ :: _ => some (rest.takeWhile isBareChar)
    match primary with
    | some t => some t.asString
    | none =>
      if 2 ≤ n then some (((cs.drop (n - 1)).takeWhile isBareChar).asString)
      else none

/-- A line's recognized version token: the heading token when it passes
the version-shape filter, mirroring the body of the first loop of
`parseChangelogEntries` (the `if (!line) continue` guard is subsumed:
an empty line yields no heading token). -/
def versionOf (line : List Char) : Option String :=
  match headingToken line with
  | some t => if versionShape t then some t else none
  | none => none

/-- `changelogContent.split("\n")`. -/
def jsLines (s : String) : List (List Char) := splitOnChar '\n' s.data

/-- First pass of `parseChangelogEntries`: the accepted version headings
with their line indices, in document order. -/
def headsOf (lines : List (List Char)) : List (String × Nat) :=
  lines.enum.filterMap fun p => (versionOf p.2).map fun v => (v, p.1)

/-- A line matched by `/^-+$|^=+$|^\*+$|^#+$/` (a purely decorative
separator line). -/
def isDecorLine (l : List Char) : Bool :=
  !l.isEmpty &&
    (l.all (fun c => c == '-') || l.all (fun c => c == '=') ||
     l.all (fun c => c == '*') || l.all (fun c => c == '#'))

/-- `rawContent.replace(/^-+$|^=+$|^\*+$|^#+$/gm, "")`: each decorative
line is replaced by the empty line, newlines are kept. -/
def stripDecorList (cs : List Char) : List Char :=
  joinChar '\n' ((splitOnChar '\n' cs).map fun l => if isDecorLine l then [] else l)

/-- The sentinel stored for empty or trivially short entry bodies. -/
def emptyEntryPlaceholder : String :=
  "[Empty changelog entry - no details provided for this version]"

/-- Second pass body of `parseChangelogEntries` for one entry:
`rawContent = contentLines.join("\n").trim()`, `cleanContent` strips
decorative lines and trims again, and the stored content is the
placeholder when `!cleanContent || cleanContent.length < 10`, otherwise
`rawContent`. -/
def mkContent (contentLines : List (List Char)) : String :=
  let rawContent := jsTrimList (joinChar '\n' contentLines)
  let cleanContent := jsTrimList (stripDecorList rawContent)
  if cleanContent.isEmpty || cleanContent.length < 10 then emptyEntryPlaceholder
  else rawContent.asString

structure ChangelogEntry where
  version : String
  content : String
deriving DecidableEq

structure ParsedChangelog where
  entries : List ChangelogEntry
deriving DecidableEq

/-- `nextEntry ? nextEntry.lineStart : lines.length`: where the current
entry's span stops, given the remaining headings. -/
def nextStart (lines : List (List Char)) : List (String × Nat) → Nat
  | (_, s2) :: _ => s2
  | [] => lines.length

/-- Second pass of `parseChangelogEntries`: each heading's content span is
`lines.slice(entry.lineStart + 1, stop)` where `stop` is the next
heading's line index, or `lines.length` for the last heading. -/
def buildEntries (lines : List (List Char)) : List (String × Nat) → List ChangelogEntry
  | [] => []
  | (v, s) :: rest =>
    ⟨v, mkContent ((lines.drop (s + 1)).take (nextStart lines rest - (s + 1)))⟩ ::
      buildEntries lines rest

/-- `parseChangelogEntries` from `changelog-tool.ts`. -/
def parseChangelogEntries (changelogContent : String) : ParsedChangelog :=
  let lines := jsLines changelogContent
  ⟨buildEntries lines (headsOf lines)⟩

/-- `v.replace(/^v/, "")`: strip one leading lowercase `v`. -/
def stripLeadingV (s : String) : String :=
  match s.data with
  | 'v' :: rest => rest.asString
  | _ => s

/-- The three-way candidate test inside `entries.find(...)` of
`findChangelogEntry`. -/
def entryMatches (requestedVersion : String) (e : ChangelogEntry) : Bool :=
  let normalizedRequested := stripLeadingV requestedVersion
  e.version == requestedVersion || e.version == "v" ++ normalizedRequested ||
    stripLeadingV e.version == normalizedRequested

structure FindResult where
  success : Bool
  changelog : Option ChangelogEntry
  message : String
deriving DecidableEq

/-- Body of `findChangelogEntry` after parsing (the surrounding
`try`/`catch` is modelled away: every operation in the body is total, see
the claim about the unreachable catch).  `if (requestedVersion)` is JS
truthiness: both `undefined` and the empty string take the latest-entry
branch. -/
def findEntryCore (entries : List ChangelogEntry) (requestedVersion : Option String) : FindResult :=
  if entries.isEmpty then ⟨false, none, "No version entries found"⟩
  else
    match requestedVersion.filter (fun r => r != "") with
    | some r =>
      match entries.find? (entryMatches r) with
      | some entry =>
        ⟨true, some ⟨entry.version, entry.content⟩,
          "Found changelog for version " ++ entry.version⟩
      | none =>
        ⟨false, none,
          "Version " ++ r ++ " not found. Available: " ++
            String.intercalate ", " (entries.map (fun e => e.version))⟩
    | none =>
      match entries.head? with
      | some latest =>
        ⟨true, some ⟨latest.version, latest.content⟩,
          "Latest changelog entry: " ++ latest.version⟩
      | none => ⟨false, none, "No version entries found"⟩

/-- `findChangelogEntry` from `changelog-tool.ts`. -/
def findChangelogEntry (changelogContent : String) (requestedVersion : Option String) : FindResult :=
  findEntryCore (parseChangelogEntries changelogContent).entries requestedVersion

structure VersionsResult where
  success : Bool
  versions : Option (List String)
  message : String
deriving DecidableEq

/-- The pure core of the `pi_changelog_versions` tool's `execute`: parse,
fail when no entries were extracted, otherwise project the version list
(the local-file I/O around it is an excluded collaborator). -/
def listChangelogVersions (changelogContent : String) : VersionsResult :=
  let entries := (parseChangelogEntries changelogContent).entries
  if entries.isEmpty then ⟨false, none, "No version entries found in changelog"⟩
  else
    ⟨true, some (entries.map (fun e => e.version)),
      "Found " ++ toString (entries.map (fun e => e.version)).length ++ " versions"⟩

/-- Decimal digit run to a natural number. -/
def digitsToNat (l : List Char) : Nat :=
  l.foldl (fun a c => a * 10 + (c.toNat - '0'.toNat)) 0

/-- JS `Number(component)` on a dot-free version component; `none` is NaN.
Whitespace is trimmed, the empty string converts to `0`, an optional sign
followed by a decimal digit run converts exactly; every other shape
(including hex/exponent/`Infinity`, which cannot arise from version
strings) is NaN. -/
def jsNumber (s : String) : Option Int :=
  let t := jsTrimList s.data
  if t.isEmpty then some 0
  else
    let signDigits : Int × List Char :=
      match t with
      | '-' :: rest => (-1, rest)
      | '+' :: rest => (1, rest)
      | _ => (1, t)
    if !signDigits.2.isEmpty && signDigits.2.all Char.isDigit then
      some (signDigits.1 * (digitsToNat signDigits.2 : Int))
    else none

/-- JS `>` on numbers-or-NaN: any comparison against NaN is false. -/
def jsGt : Option Int → Option Int → Bool
  | some x, some y => decide (y < x)
  | _, _ => false

/-- JS `<` on numbers-or-NaN: any comparison against NaN is false. -/
def jsLt : Option Int → Option Int → Bool
  | some x, some y => decide (x < y)
  | _, _ => false

/-- Tail of the component loop once the requested side is exhausted:
each remaining requested component reads as `0` (`reqParts[i] ?? 0`). -/
def comparePartsRight : List (Option Int) → Bool
  | [] => false
  | b :: bs =>
    if jsGt (some 0) b then true else if jsLt (some 0) b then false else comparePartsRight bs

/-- Tail of the component loop once the installed side is exhausted:
each remaining installed component reads as `0` (`instParts[i] ?? 0`). -/
def comparePartsLeft : List (Option Int) → Bool
  | [] => false
  | a :: as_ =>
    if jsGt a (some 0) then true else if jsLt a (some 0) then false else comparePartsLeft as_

/-- The component loop of `isNewerThanInstalled`
(`for i in 0..max(len)`): indices beyond a list's end read as `0`
(`parts[i] ?? 0`), in-range NaN entries stay NaN. -/
def compareParts : List (Option Int) → List (Option Int) → Bool
  | [], bs => comparePartsRight bs
  | as_, [] => comparePartsLeft as_
  | a :: as_, b :: bs =>
    if jsGt a b then true else if jsLt a b then false else compareParts as_ bs

/-- `isNewerThanInstalled` from `changelog-tool.ts`, with the installed
`VERSION` (imported there from the host package) abstracted as a
parameter. -/
def isNewerThanInstalled (requestedVersion : String) (installedVersion : String) : Bool :=
  let req := stripLeadingV requestedVersion
  let installed := stripLeadingV installedVersion
  if req == installed then false
  else
    compareParts ((splitOnChar '.' req.data).map (fun c => jsNumber c.asString))
      ((splitOnChar '.' installed.data).map (fun c => jsNumber c.asString))

/-- Modelled from the spec: the comparison the claim describes, in which a
dot-separated component that is not a number is coerced to `0` before the
left-to-right comparison.  Stated only to exhibit its divergence from
`isNewerThanInstalled`. -/
def isNewerCoerceZero (requestedVersion : String) (installedVersion : String) : Bool :=
  let req := stripLeadingV requestedVersion
  let installed := stripLeadingV installedVersion
  if req == installed then false
  else
    compareParts ((splitOnChar '.' req.data).map (fun c => some ((jsNumber c.asString).getD 0)))
      ((splitOnChar '.' installed.data).map (fun c => some ((jsNumber c.asString).getD 0)))

/-- Index of the first element satisfying `p` (used to express "same array
position" for the resolver's `entries.find`). -/
def findIdxFrom {α : Type} (p : α → Bool) : List α → Option Nat
  | [] => none
  | x :: xs => if p x then some 0 else (findIdxFrom p xs).map (· + 1)

/-- `sub` occurs as a contiguous run inside `l`. -/
def containsRun {α : Type} (sub l : List α) : Prop :=
  ∃ a b, l = a ++ sub ++ b

/-- `p` is an initial run of `l`. -/
def leadsList {α : Type} (p l : List α) : Prop :=
  ∃ t, p ++ t = l

/-- The two-entry scenario document used by the spec. -/
def c1Doc : String := "## 1.0.0\nFixed bug\n\n## 0.9.0\nInitial release"

/-- Document whose single entry has a span with a leading blank line and a
substantive (11-character) body. -/
def c2Doc : String := "## 1.0.0\n\nabcdefghijk"

/-- Document with no version-like headings at all. -/
def c8Doc : String := "Just some notes\nwithout any version headings"

/-- Claim C1 (counterexample): the spec's scenario output is wrong on the
code — parsing the two-entry document does not yield `"Fixed bug"` as the
first entry's content ("Fixed bug" has only 9 characters, below the
10-character threshold). -/
theorem c1_counterexample :
    (parseChangelogEntries c1Doc).entries ≠
      [⟨"1.0.0", "Fixed bug"⟩, ⟨"0.9.0", "Initial release"⟩] := by decide

/-- Claim C1 (amended): parsing the scenario document yields exactly two
entries, `1.0.0` with the empty-entry placeholder as content (since
"Fixed bug" is shorter than 10 characters) and `0.9.0` with content
"Initial release"; `findEntry` with no requested version succeeds with the
`1.0.0` entry and message "Latest changelog entry: 1.0.0". -/
theorem c1_scenario_actual :
    (parseChangelogEntries c1Doc).entries =
      [⟨"1.0.0", emptyEntryPlaceholder⟩, ⟨"0.9.0", "Initial release"⟩] ∧
    findChangelogEntry c1Doc none =
      ⟨true, some ⟨"1.0.0", emptyEntryPlaceholder⟩,
        "Latest changelog entry: 1.0.0"⟩ := by decide

/-- Claim C2 (counterexample): an entry whose decoration-stripped content
has length 11 (at least 10) stores the trimmed join "abcdefghijk", not the
untrimmed original span text "\nabcdefghijk". -/
theorem c2_counterexample :
    (parseChangelogEntries c2Doc).entries = [⟨"1.0.0", "abcdefghijk"⟩] ∧
    (joinChar '\n' (((jsLines c2Doc).drop 1).take 2)).asString = "\nabcdefghijk" ∧
    10 ≤ (jsTrimList (stripDecorList (jsTrimList
      (joinChar '\n' (((jsLines c2Doc).drop 1).take 2))))).length ∧
    ("abcdefghijk" : String) ≠ "\nabcdefghijk" := by decide

/-- Claim C3 (counterexample): the code does not treat a non-numeric
installed-version component as 0 — `isNewer("1.2", "1.abc")` is `false`,
while the claimed coerce-to-zero comparison yields `true` (2 > 0). -/
theorem c3_counterexample :
    isNewerThanInstalled "1.2" "1.abc" = false ∧
    isNewerCoerceZero "1.2" "1.abc" = true := by decide

/-- Claim C3 (amended): a non-numeric dot-separated component becomes NaN,
and both NaN comparisons in the loop are false, so that component is
skipped as if equal — never treated as 0; the comparison is a total
function of its string arguments.  Concretely `isNewer("1.2","1.abc")` is
false (a 0-coercion would give true) and `isNewer("1.abc.1","1.5.0")` is
true because the NaN position is skipped and decision falls to the third
component. -/
theorem c3_nan_skip :
    (∀ (a b : Option Int) (as_ bs : List (Option Int)), a = none ∨ b = none →
      compareParts (a :: as_) (b :: bs) = compareParts as_ bs) ∧
    isNewerThanInstalled "1.2" "1.abc" = false ∧
    isNewerThanInstalled "1.abc.1" "1.5.0" = true := by
  refine ⟨?_, by decide, by decide⟩
  rintro a b as_ bs (rfl | rfl)
  · cases b <;> simp [compareParts, jsGt, jsLt]
  · cases a <;> simp [compareParts, jsGt, jsLt]

/-- Witness for the amended C3 theorem at concrete inputs. -/
theorem c3_nan_skip_witness :
    compareParts [none] [some 2] = compareParts [] [] ∧
    isNewerThanInstalled "1.2" "1.abc" = false :=
  ⟨c3_nan_skip.1 none (some 2) [] [] (Or.inl rfl), c3_nan_skip.2.1⟩

/-- Claim C4 (counterexample): the heading regex requires only zero or
more whitespace after the `#` run, so the line "#1.0.0" IS recognized as a
version heading with token "1.0.0". -/
theorem c4_counterexample :
    versionOf ("#1.0.0".data) = some "1.0.0" ∧
    (parseChangelogEntries "#1.0.0").entries =
      [⟨"1.0.0", emptyEntryPlaceholder⟩] := by decide

/-- Claim C6: `isNewer(a, a)` is false for every string `a` (the
normalized forms are equal), `isNewer("2.0.0","1.9.9")` is true,
`isNewer("1.2","1.2.1")` is false (the missing third component of the
request reads as 0), and `isNewer("v2.0.0","1.0.0")` is true (the leading
`v` is stripped before comparison). -/
theorem c6_isNewer_laws :
    (∀ a : String, isNewerThanInstalled a a = false) ∧
    isNewerThanInstalled "2.0.0" "1.9.9" = true ∧
    isNewerThanInstalled "1.2" "1.2.1" = false ∧
    isNewerThanInstalled "v2.0.0" "1.0.0" = true := by
  refine ⟨fun a => ?_, by decide, by decide, by decide⟩
  simp [isNewerThanInstalled]

/-- Claim C7 (counterexample): the empty string is a requested version
that matches no entry of the two-entry document, yet `findEntry` succeeds
with the latest entry (JS truthiness sends `""` to the no-version branch)
instead of failing with the available-versions message. -/
theorem c7_counterexample :
    (parseChangelogEntries c1Doc).entries ≠ [] ∧
    (∀ e ∈ (parseChangelogEntries c1Doc).entries, entryMatches "" e = false) ∧
    findChangelogEntry c1Doc (some "") =
      ⟨true, some ⟨"1.0.0", emptyEntryPlaceholder⟩,
        "Latest changelog entry: 1.0.0"⟩ := by decide

theorem stringDataAppend (s t : String) : (s ++ t).data = s.data ++ t.data := by
  cases s; cases t; rfl

theorem dataAsString (s : String) : s.data.asString = s := by
  cases s; rfl

theorem splitOnChar_ne_nil (sep : Char) (cs : List Char) : splitOnChar sep cs ≠ [] := by
  induction cs with
  | nil => simp [splitOnChar]
  | cons c rest ih =>
    unfold splitOnChar
    cases h : splitOnChar sep rest with
    | nil => simp
    | cons hh tt =>
      split <;> try simp
      split <;> simp

theorem joinChar_splitOnChar (sep : Char) (cs : List Char) :
    joinChar sep (splitOnChar sep cs) = cs := by
  induction cs with
  | nil => rfl
  | cons c rest ih =>
    unfold splitOnChar
    cases h : splitOnChar sep rest with
    | nil => exact absurd h (splitOnChar_ne_nil sep rest)
    | cons hh tt =>
      rw [h] at ih
      by_cases hc : c == sep
      · have hcs : c = sep := eq_of_beq hc
        simp only [hc, if_true, joinChar, List.nil_append]
        rw [ih, hcs]
      · simp only [hc, if_false, Bool.false_eq_true]
        cases tt with
        | nil =>
          simp only [joinChar] at ih ⊢
          rw [ih]
        | cons t1 ts =>
          simp only [joinChar] at ih ⊢
          rw [List.cons_append, ih]

theorem joinChar_map_le (sep : Char) (f : List Char → List Char)
    (hf : ∀ l, (f l).length ≤ l.length) :
    ∀ ls : List (List Char), (joinChar sep (ls.map f)).length ≤ (joinChar sep ls).length
  | [] => le_refl _
  | [l] => hf l
  | l :: l2 :: ls => by
    have ih := joinChar_map_le sep f hf (l2 :: ls)
    simp only [List.map_cons] at ih ⊢
    simp only [joinChar, List.length_append, List.length_cons]
    have := hf l
    omega

theorem dropWhile_length_le (p : Char → Bool) (l : List Char) :
    (l.dropWhile p).length ≤ l.length := by
  induction l with
  | nil => simp
  | cons c rest ih =>
    rw [List.dropWhile]
    split
    · exact le_trans ih (Nat.le_succ _)
    · exact le_refl _

theorem jsTrimList_length_le (cs : List Char) : (jsTrimList cs).length ≤ cs.length := by
  unfold jsTrimList
  rw [List.length_reverse]
  calc ((cs.dropWhile isJsWs).reverse.dropWhile isJsWs).length
      ≤ (cs.dropWhile isJsWs).reverse.length := dropWhile_length_le _ _
    _ = (cs.dropWhile isJsWs).length := List.length_reverse _
    _ ≤ cs.length := dropWhile_length_le _ _

theorem stripDecorList_length_le (cs : List Char) :
    (stripDecorList cs).length ≤ cs.length := by
  unfold stripDecorList
  have hf : ∀ l : List Char, (if isDecorLine l then ([] : List Char) else l).length ≤ l.length := by
    intro l; split <;> simp
  have h := joinChar_map_le '\n' _ hf (splitOnChar '\n' cs)
  rwa [joinChar_splitOnChar] at h

theorem mkContent_cases (cls : List (List Char)) :
    mkContent cls = emptyEntryPlaceholder ∨
      (mkContent cls = (jsTrimList (joinChar '\n' cls)).asString ∧
        10 ≤ (jsTrimList (stripDecorList (jsTrimList (joinChar '\n' cls)))).length) := by
  unfold mkContent
  dsimp only
  split
  · exact Or.inl rfl
  · rename_i h
    refine Or.inr ⟨rfl, ?_⟩
    simp only [Bool.or_eq_true, List.isEmpty_iff, decide_eq_true_eq, not_or] at h
    omega

theorem mkContent_ne_empty (cls : List (List Char)) : mkContent cls ≠ "" := by
  rcases mkContent_cases cls with h | ⟨h, hlen⟩
  · rw [h]; decide
  · rw [h]
    intro hc
    have hdata : jsTrimList (joinChar '\n' cls) = [] := congrArg String.data hc
    rw [hdata] at hlen
    exact absurd hlen (by decide)

theorem versionOf_shape {line : List Char} {v : String} (h : versionOf line = some v) :
    versionShape v = true := by
  unfold versionOf at h
  cases hh : headingToken line with
  | none => rw [hh] at h; exact absurd h (by simp)
  | some t =>
    rw [hh] at h
    dsimp only at h
    cases hs : versionShape t with
    | false => rw [hs] at h; simp at h
    | true =>
      rw [hs] at h
      simp at h
      rwa [← h]

theorem headsOf_shape {lines : List (List Char)} {v : String} {i : Nat}
    (h : (v, i) ∈ headsOf lines) : versionShape v = true := by
  unfold headsOf at h
  obtain ⟨p, hp, hmap⟩ := List.mem_filterMap.mp h
  cases hv : versionOf p.2 with
  | none => rw [hv] at hmap; simp at hmap
  | some t =>
    rw [hv] at hmap
    simp at hmap
    obtain ⟨rfl, -⟩ := hmap
    exact versionOf_shape hv

theorem buildEntries_mem {lines : List (List Char)} {heads : List (String × Nat)}
    {e : ChangelogEntry} (h : e ∈ buildEntries lines heads) :
    ∃ v s stop, (v, s) ∈ heads ∧
      e = ⟨v, mkContent ((lines.drop (s + 1)).take (stop - (s + 1)))⟩ := by
  induction heads with
  | nil => simp [buildEntries] at h
  | cons hd rest ih =>
    obtain ⟨v0, s0⟩ := hd
    simp only [buildEntries] at h
    rcases List.mem_cons.mp h with h1 | h1
    · exact ⟨v0, s0, nextStart lines rest, List.mem_cons_self _ _, h1⟩
    · obtain ⟨v, s, stop, hmem, he⟩ := ih h1
      exact ⟨v, s, stop, List.mem_cons_of_mem _ hmem, he⟩

theorem take_drop_containsRun {α : Type} (l : List α) (a b : Nat) :
    containsRun ((l.drop a).take b) l := by
  refine ⟨l.take a, (l.drop a).drop b, ?_⟩
  rw [List.append_assoc, List.take_append_drop b (l.drop a), List.take_append_drop a l]

theorem entries_inv {doc : String} {e : ChangelogEntry}
    (h : e ∈ (parseChangelogEntries doc).entries) :
    versionShape e.version = true ∧
      ∃ cls, containsRun cls (jsLines doc) ∧ e.content = mkContent cls := by
  have hE : (parseChangelogEntries doc).entries
      = buildEntries (jsLines doc) (headsOf (jsLines doc)) := rfl
  rw [hE] at h
  obtain ⟨v, s, stop, hmem, rfl⟩ := buildEntries_mem h
  refine ⟨headsOf_shape hmem, ?_⟩
  refine ⟨((jsLines doc).drop (s + 1)).take (stop - (s + 1)),
    take_drop_containsRun _ _ _, ?_⟩
  simp only []

/-- Claim C10: every entry produced by `parse` has a version token passing
the prefix test "optional leading v, one or more digits, a dot, one or
more digits", and a content string that is never empty — it is either
exactly the placeholder, or the trimmed join of a contiguous run of the
document's lines whose decoration-stripped trimmed form has length at
least 10. -/
theorem c10_parse_invariant (doc : String) (e : ChangelogEntry)
    (h : e ∈ (parseChangelogEntries doc).entries) :
    versionShape e.version = true ∧ e.content ≠ "" ∧
      (e.content = emptyEntryPlaceholder ∨
        ∃ cls, containsRun cls (jsLines doc) ∧
          e.content = (jsTrimList (joinChar '\n' cls)).asString ∧
          10 ≤ (jsTrimList (stripDecorList (jsTrimList (joinChar '\n' cls)))).length) := by
  obtain ⟨hshape, cls, hrun, hcontent⟩ := entries_inv h
  refine ⟨hshape, ?_, ?_⟩
  · rw [hcontent]; exact mkContent_ne_empty cls
  · rcases mkContent_cases cls with hc | ⟨hc, hlen⟩
    · exact Or.inl (hcontent.trans hc)
    · exact Or.inr ⟨cls, hrun, hcontent.trans hc, hlen⟩

/-- Witness for C10 at the scenario document and its second entry. -/
theorem c10_parse_invariant_witness :
    versionShape (⟨"0.9.0", "Initial release"⟩ : ChangelogEntry).version = true ∧
    (⟨"0.9.0", "Initial release"⟩ : ChangelogEntry).content ≠ "" ∧
    ((⟨"0.9.0", "Initial release"⟩ : ChangelogEntry).content = emptyEntryPlaceholder ∨
      ∃ cls, containsRun cls (jsLines c1Doc) ∧
        (⟨"0.9.0", "Initial release"⟩ : ChangelogEntry).content
          = (jsTrimList (joinChar '\n' cls)).asString ∧
        10 ≤ (jsTrimList (stripDecorList (jsTrimList (joinChar '\n' cls)))).length) :=
  c10_parse_invariant c1Doc ⟨"0.9.0", "Initial release"⟩ (by decide)

/-- Claim C2 (amended): for every parsed entry whose stored content is not
the placeholder, that content equals the TRIMMED join of the entry's span
lines (never the decoration-stripped version, whose only role is the
emptiness/length test deciding between span text and placeholder). -/
theorem c2_amended (doc : String) (e : ChangelogEntry)
    (h : e ∈ (parseChangelogEntries doc).entries)
    (hne : e.content ≠ emptyEntryPlaceholder) :
    ∃ cls, containsRun cls (jsLines doc) ∧
      10 ≤ (jsTrimList (stripDecorList (jsTrimList (joinChar '\n' cls)))).length ∧
      e.content = (jsTrimList (joinChar '\n' cls)).asString := by
  obtain ⟨-, cls, hrun, hcontent⟩ := entries_inv h
  rcases mkContent_cases cls with hc | ⟨hc, hlen⟩
  · exact absurd (hcontent.trans hc) hne
  · exact ⟨cls, hrun, hlen, hcontent.trans hc⟩

/-- Witness for the amended C2 at the single-entry document with a
trimmed-but-substantive span. -/
theorem c2_amended_witness :
    ∃ cls, containsRun cls (jsLines c2Doc) ∧
      10 ≤ (jsTrimList (stripDecorList (jsTrimList (joinChar '\n' cls)))).length ∧
      (⟨"1.0.0", "abcdefghijk"⟩ : ChangelogEntry).content
        = (jsTrimList (joinChar '\n' cls)).asString :=
  c2_amended c2Doc ⟨"1.0.0", "abcdefghijk"⟩ (by decide) (by decide)

theorem find?_eq_findIdxFrom {α : Type} (p : α → Bool) (l : List α) :
    l.find? p = (findIdxFrom p l).bind fun i => l.get? i := by
  induction l with
  | nil => rfl
  | cons x xs ih =>
    cases hx : p x with
    | true =>
      rw [List.find?_cons_of_pos _ hx]
      simp [findIdxFrom, hx]
    | false =>
      rw [List.find?_cons_of_neg _ (by simp [hx])]
      simp only [findIdxFrom, hx, Bool.false_eq_true, if_false]
      rw [ih]
      cases findIdxFrom p xs with
      | none => rfl
      | some i => rfl

theorem findIdxFrom_congr {α : Type} {p q : α → Bool} (h : ∀ a, p a = q a) :
    ∀ l : List α, findIdxFrom p l = findIdxFrom q l
  | [] => rfl
  | x :: xs => by
    rw [findIdxFrom, findIdxFrom, h x, findIdxFrom_congr h xs]

theorem find?_congr_pt {α : Type} {p q : α → Bool} (h : ∀ a, p a = q a) (l : List α) :
    l.find? p = l.find? q := by
  rw [find?_eq_findIdxFrom, find?_eq_findIdxFrom, findIdxFrom_congr h l]

theorem stripLeadingV_eq_self {X : String} (h : X.data.head? ≠ some 'v') :
    stripLeadingV X = X := by
  unfold stripLeadingV
  split
  · rename_i rest heq
    exact absurd (by rw [heq]; rfl) h
  · rfl

theorem stripLeadingV_v_append (X : String) : stripLeadingV ("v" ++ X) = X := by
  have hd : ("v" ++ X).data = 'v' :: X.data := by
    rw [stringDataAppend]; rfl
  unfold stripLeadingV
  split
  · rename_i rest heq
    rw [hd] at heq
    injection heq with h1 h2
    rw [← h2]
    exact dataAsString X
  · rename_i hne
    exact absurd hd (hne X.data)

theorem entryMatches_v_eq {X : String} (h : X.data.head? ≠ some 'v') (e : ChangelogEntry) :
    entryMatches ("v" ++ X) e = entryMatches X e := by
  simp only [entryMatches]
  rw [stripLeadingV_v_append, stripLeadingV_eq_self h]
  by_cases h1 : e.version = X
  · subst h1
    rw [stripLeadingV_eq_self h]
    simp
  · have h2 : (e.version == X) = false := beq_eq_false_iff_ne.mpr h1
    rw [h2]
    cases e.version == "v" ++ X <;> cases stripLeadingV e.version == X <;> simp

theorem findEntryCore_found {entries : List ChangelogEntry} {r : String} {e0 : ChangelogEntry}
    (hne : entries ≠ []) (hr : r ≠ "")
    (hf : entries.find? (entryMatches r) = some e0) :
    findEntryCore entries (some r) =
      ⟨true, some e0, "Found changelog for version " ++ e0.version⟩ := by
  have hEmp : entries.isEmpty = false := by
    cases entries with
    | nil => exact absurd rfl hne
    | cons a t => rfl
  have hfil : (some r).filter (fun x => x != "") = some r := by
    simp [Option.filter, hr]
  simp [findEntryCore, hEmp, hfil, hf]

/-- Claim C5: for every parsed changelog with an entry whose version `X`
has no leading `v`, the requests `X`, `"v" ++ X` and `X` with a leading
`v` stripped all succeed and resolve to the same entry at the same array
position. -/
theorem c5_normalization_law (doc X : String) (hv : X.data.head? ≠ some 'v')
    (hmem : ∃ e ∈ (parseChangelogEntries doc).entries, e.version = X) :
    ∃ i e0, (parseChangelogEntries doc).entries.get? i = some e0 ∧
      findIdxFrom (entryMatches X) (parseChangelogEntries doc).entries = some i ∧
      findIdxFrom (entryMatches ("v" ++ X)) (parseChangelogEntries doc).entries = some i ∧
      findIdxFrom (entryMatches (stripLeadingV X)) (parseChangelogEntries doc).entries = some i ∧
      findChangelogEntry doc (some X) =
        ⟨true, some e0, "Found changelog for version " ++ e0.version⟩ ∧
      findChangelogEntry doc (some ("v" ++ X)) =
        ⟨true, some e0, "Found changelog for version " ++ e0.version⟩ ∧
      findChangelogEntry doc (some (stripLeadingV X)) =
        ⟨true, some e0, "Found changelog for version " ++ e0.version⟩ := by
  obtain ⟨e, he, hev⟩ := hmem
  have hshape : versionShape X = true := hev ▸ (entries_inv he).1
  have hXne : X ≠ "" := by
    rintro rfl
    exact absurd hshape (by decide)
  have hvX : stripLeadingV X = X := stripLeadingV_eq_self hv
  have hpt : ∀ a, entryMatches ("v" ++ X) a = entryMatches X a := entryMatches_v_eq hv
  have hne : (parseChangelogEntries doc).entries ≠ [] := List.ne_nil_of_mem he
  have hmatch : entryMatches X e = true := by
    simp [entryMatches, hev]
  have hfind : ∃ e0, (parseChangelogEntries doc).entries.find? (entryMatches X) = some e0 := by
    cases hf : (parseChangelogEntries doc).entries.find? (entryMatches X) with
    | some e1 => exact ⟨e1, rfl⟩
    | none => exact absurd hmatch (List.find?_eq_none.mp hf e he)
  obtain ⟨e0, hf⟩ := hfind
  have hbind := find?_eq_findIdxFrom (entryMatches X) (parseChangelogEntries doc).entries
  rw [hf] at hbind
  cases hidx : findIdxFrom (entryMatches X) (parseChangelogEntries doc).entries with
  | none => rw [hidx] at hbind; simp at hbind
  | some i =>
    rw [hidx] at hbind
    simp only [Option.bind_some, Option.some_bind] at hbind
    have hvXne : ("v" ++ X) ≠ "" := by
      intro hc
      have hc2 := congrArg String.data hc
      rw [stringDataAppend] at hc2
      simp at hc2
    have hfv : (parseChangelogEntries doc).entries.find? (entryMatches ("v" ++ X)) = some e0 := by
      rw [find?_congr_pt hpt]; exact hf
    have hidxv :
        findIdxFrom (entryMatches ("v" ++ X)) (parseChangelogEntries doc).entries = some i := by
      rw [findIdxFrom_congr hpt]; exact hidx
    refine ⟨i, e0, hbind.symm, rfl, hidxv, by rw [hvX]; exact hidx, ?_, ?_, ?_⟩
    · exact findEntryCore_found hne hXne hf
    · exact findEntryCore_found hne hvXne hfv
    · rw [hvX]
      exact findEntryCore_found hne hXne hf

/-- Witness for C5 at the scenario document with version "1.0.0". -/
theorem c5_normalization_law_witness :
    ∃ i e0, (parseChangelogEntries c1Doc).entries.get? i = some e0 ∧
      findIdxFrom (entryMatches "1.0.0") (parseChangelogEntries c1Doc).entries = some i ∧
      findIdxFrom (entryMatches ("v" ++ "1.0.0")) (parseChangelogEntries c1Doc).entries = some i ∧
      findIdxFrom (entryMatches (stripLeadingV "1.0.0"))
        (parseChangelogEntries c1Doc).entries = some i ∧
      findChangelogEntry c1Doc (some "1.0.0") =
        ⟨true, some e0, "Found changelog for version " ++ e0.version⟩ ∧
      findChangelogEntry c1Doc (some ("v" ++ "1.0.0")) =
        ⟨true, some e0, "Found changelog for version " ++ e0.version⟩ ∧
      findChangelogEntry c1Doc (some (stripLeadingV "1.0.0")) =
        ⟨true, some e0, "Found changelog for version " ++ e0.version⟩ :=
  c5_normalization_law c1Doc "1.0.0" (by decide) (by decide)

/-- Claim C7 (amended): for every non-empty parsed changelog and every
NON-EMPTY requested version matching no entry under the three-way
comparison, `findEntry` fails with the message listing all entry versions,
comma-joined, in document order.  (The empty-string request instead takes
the latest-entry branch, see the counterexample.) -/
theorem c7_amended (doc r : String) (hr : r ≠ "")
    (hne : (parseChangelogEntries doc).entries ≠ [])
    (hnomatch : ∀ e ∈ (parseChangelogEntries doc).entries, entryMatches r e = false) :
    findChangelogEntry doc (some r) =
      ⟨false, none, "Version " ++ r ++ " not found. Available: " ++
        String.intercalate ", " ((parseChangelogEntries doc).entries.map
          (fun e => e.version))⟩ := by
  have hEmp : (parseChangelogEntries doc).entries.isEmpty = false := by
    cases hc : (parseChangelogEntries doc).entries with
    | nil => exact absurd hc hne
    | cons a t => rfl
  have hfil : (some r).filter (fun x => x != "") = some r := by
    simp [Option.filter, hr]
  have hfind : (parseChangelogEntries doc).entries.find? (entryMatches r) = none :=
    List.find?_eq_none.mpr (fun x hx => by simp [hnomatch x hx])
  simp [findChangelogEntry, findEntryCore, hEmp, hfil, hfind]

/-- Witness for the amended C7: the scenario document with request
"2.0.0" fails with the message listing "1.0.0, 0.9.0". -/
theorem c7_amended_witness :
    findChangelogEntry c1Doc (some "2.0.0") =
      ⟨false, none, "Version 2.0.0 not found. Available: 1.0.0, 0.9.0"⟩ :=
  (c7_amended c1Doc "2.0.0" (by decide) (by decide) (by decide)).trans (by decide)

theorem enumFrom_snd_mem {α : Type} {p : Nat × α} :
    ∀ {n : Nat} {l : List α}, p ∈ List.enumFrom n l → p.2 ∈ l := by
  intro n l
  induction l generalizing n with
  | nil => intro h; simp [List.enumFrom] at h
  | cons a t ih =>
    intro h
    rw [show List.enumFrom n (a :: t) = (n, a) :: List.enumFrom (n + 1) t from rfl] at h
    rcases List.mem_cons.mp h with h1 | h1
    · rw [h1]; exact List.mem_cons_self _ _
    · exact List.mem_cons_of_mem _ (ih h1)

/-- Claim C8: a document in which no line is recognized as a version
heading parses to an empty entry list; `findEntry` (with or without a
requested version) fails with "No version entries found", and listing
versions likewise reports the no-entries failure rather than succeeding
with an empty list. -/
theorem c8_no_headings (doc : String)
    (h : ∀ l ∈ jsLines doc, versionOf l = none) :
    (parseChangelogEntries doc).entries = [] ∧
    (∀ req : Option String,
      findChangelogEntry doc req = ⟨false, none, "No version entries found"⟩) ∧
    listChangelogVersions doc = ⟨false, none, "No version entries found in changelog"⟩ := by
  have hheads : headsOf (jsLines doc) = [] := by
    unfold headsOf
    refine List.filterMap_eq_nil_iff.mpr ?_
    intro p hp
    rw [h p.2 (enumFrom_snd_mem hp)]
    rfl
  have hE : (parseChangelogEntries doc).entries = [] := by
    have hdef : (parseChangelogEntries doc).entries
        = buildEntries (jsLines doc) (headsOf (jsLines doc)) := rfl
    rw [hdef, hheads]
    rfl
  refine ⟨hE, fun req => ?_, ?_⟩
  · have hdef : findChangelogEntry doc req
        = findEntryCore (parseChangelogEntries doc).entries req := rfl
    rw [hdef, hE]
    rfl
  · unfold listChangelogVersions
    rw [hE]
    rfl

/-- Witness for C8 at a document with no version-like headings. -/
theorem c8_no_headings_witness :
    (parseChangelogEntries c8Doc).entries = [] ∧
    (∀ req : Option String,
      findChangelogEntry c8Doc req = ⟨false, none, "No version entries found"⟩) ∧
    listChangelogVersions c8Doc =
      ⟨false, none, "No version entries found in changelog"⟩ :=
  c8_no_headings c8Doc (by decide)

theorem leadsList_head {α : Type} {c : α} {l1 m : List α} (h : leadsList (c :: l1) m) :
    m.head? = some c := by
  obtain ⟨t, ht⟩ := h
  rw [← ht]
  rfl

theorem data_append_cons {a : String} {c : Char} {l : List Char} (ha : a.data = c :: l)
    (s : String) : (a ++ s).data = c :: (l ++ s.data) := by
  rw [stringDataAppend, ha]
  rfl

theorem findEntryCore_shape (entries : List ChangelogEntry) (req : Option String) :
    ((findEntryCore entries req).success = true →
      (findEntryCore entries req).changelog.isSome = true) ∧
    ((findEntryCore entries req).message = "No version entries found" ∨
     (∃ s, (findEntryCore entries req).message = "Found changelog for version " ++ s) ∨
     (∃ s t, (findEntryCore entries req).message =
        "Version " ++ s ++ " not found. Available: " ++ t) ∨
     (∃ s, (findEntryCore entries req).message = "Latest changelog entry: " ++ s)) := by
  unfold findEntryCore
  split
  · exact ⟨fun hcontra => absurd hcontra (by simp), Or.inl rfl⟩
  · split
    · split
      · exact ⟨fun _ => rfl, Or.inr (Or.inl ⟨_, rfl⟩)⟩
      · exact ⟨fun hcontra => absurd hcontra (by simp), Or.inr (Or.inr (Or.inl ⟨_, _, rfl⟩))⟩
    · split
      · exact ⟨fun _ => rfl, Or.inr (Or.inr (Or.inr ⟨_, rfl⟩))⟩
      · exact ⟨fun hcontra => absurd hcontra (by simp), Or.inl rfl⟩

/-- Claim C9: for every document and every optional requested version,
resolution is a total function returning a structured result (success
implies a changelog entry is present), and the message never begins with
"Error parsing changelog:" — the catch branch of the source is
unreachable because no operation in the body can throw. -/
theorem c9_total_no_error_message (doc : String) (req : Option String) :
    ((findChangelogEntry doc req).success = true →
      (findChangelogEntry doc req).changelog.isSome = true) ∧
    ¬ leadsList ("Error parsing changelog:".data)
        (findChangelogEntry doc req).message.data := by
  have hFE : findChangelogEntry doc req
      = findEntryCore (parseChangelogEntries doc).entries req := rfl
  rw [hFE]
  obtain ⟨h1, h2⟩ := findEntryCore_shape (parseChangelogEntries doc).entries req
  refine ⟨h1, fun hcontra => ?_⟩
  have herr : "Error parsing changelog:".data
      = 'E' :: "rror parsing changelog:".data := rfl
  rw [herr] at hcontra
  have hh := leadsList_head hcontra
  rcases h2 with hm | ⟨s, hm⟩ | ⟨s, t, hm⟩ | ⟨s, hm⟩ <;> rw [hm] at hh
  · exact absurd hh (by decide)
  · rw [data_append_cons (show ("Found changelog for version " : String).data
        = 'F' :: ("ound changelog for version " : String).data from rfl) s] at hh
    rw [List.head?_cons] at hh
    injection hh with hc
    exact absurd hc (by decide)
  · have hA := data_append_cons (show ("Version " : String).data
        = 'V' :: ("ersion " : String).data from rfl) s
    have hB := data_append_cons hA " not found. Available: "
    have hC := data_append_cons hB t
    rw [hC, List.head?_cons] at hh
    injection hh with hc
    exact absurd hc (by decide)
  · rw [data_append_cons (show ("Latest changelog entry: " : String).data
        = 'L' :: ("atest changelog entry: " : String).data from rfl) s] at hh
    rw [List.head?_cons] at hh
    injection hh with hc
    exact absurd hc (by decide)

/-- Witness for C9 at the scenario document with no requested version. -/
theorem c9_total_no_error_message_witness :
    (findChangelogEntry c1Doc none).changelog.isSome = true ∧
    ¬ leadsList ("Error parsing changelog:".data)
        (findChangelogEntry c1Doc none).message.data :=
  ⟨(c9_total_no_error_message c1Doc none).1 (by decide),
   (c9_total_no_error_message c1Doc none).2⟩

theorem dropWhile_head_false {α : Type} {p : α → Bool} {l : List α} {a : α} {t : List α}
    (h : l.dropWhile p = a :: t) : p a = false := by
  induction l with
  | nil => simp [List.dropWhile] at h
  | cons x xs ih =>
    rw [List.dropWhile] at h
    split at h
    · exact ih h
    · rename_i hpx
      injection h with h1 h2
      subst h1
      simpa using hpx

theorem headingToken_charact {line : List Char} {t : String}
    (h : headingToken line = some t) :
    (∃ n w rest, jsTrimList line = List.replicate n '#' ++ (w ++ rest) ∧ 0 < n ∧
      (∀ c ∈ w, isJsWs c = true) ∧
      ((∃ tl, rest = '[' :: (t.data ++ ']' :: tl) ∧ t.data ≠ [] ∧ ∀ c ∈ t.data, c ≠ ']') ∨
       (∃ tl, rest = t.data ++ tl ∧ t.data ≠ [] ∧ ∀ c ∈ t.data, isBareChar c = true))) ∨
    t.data.head? = some '#' := by
  unfold headingToken at h
  dsimp only at h
  set cs := jsTrimList line with hcs
  set n := (List.takeWhile (fun c => c == '#') cs).length with hn
  split at h
  · exact absurd h (by simp)
  · rename_i hn0
    have hnpos : 0 < n := by
      simp only [beq_iff_eq] at hn0
      omega
    have hrep : cs.takeWhile (fun c => c == '#') = List.replicate n '#' := by
      have hall : ∀ b ∈ cs.takeWhile (fun c => c == '#'), b = '#' := by
        intro b hb
        have hb2 := List.mem_takeWhile_imp hb
        simpa using hb2
      have hthis := List.eq_replicate_of_mem hall
      rwa [← hn] at hthis
    have hdn : cs.drop n = cs.dropWhile (fun c => c == '#') := by
      have h1 := List.drop_left (cs.takeWhile (fun c => c == '#'))
        (cs.dropWhile (fun c => c == '#'))
      rw [List.takeWhile_append_dropWhile] at h1
      rw [hn]
      exact h1
    have hsplit : cs = List.replicate n '#' ++ cs.drop n := by
      conv_lhs => rw [← List.takeWhile_append_dropWhile (p := fun c => c == '#') (l := cs)]
      rw [hrep, hdn]
    have hdecomp : cs = List.replicate n '#' ++
        ((cs.drop n).takeWhile isJsWs ++ (cs.drop n).dropWhile isJsWs) := by
      conv_lhs => rw [hsplit]
      rw [List.takeWhile_append_dropWhile]
    have hwall : ∀ c ∈ (cs.drop n).takeWhile isJsWs, isJsWs c = true :=
      fun c hc => List.mem_takeWhile_imp hc
    split at h
    · -- primary matched: h : some t✝.asString = some t
      rename_i tk heq
      injection h with ht
      split at heq
      · -- bracket arm
        rename_i tl heq2
        split at heq
        · rename_i hcond
          injection heq with hinner
          rw [Bool.and_eq_true] at hcond
          obtain ⟨h1, h2⟩ := hcond
          have hlt : (tl.takeWhile (fun c => c != ']')).length < tl.length :=
            of_decide_eq_true h1
          have hinne : tl.takeWhile (fun c => c != ']') ≠ [] := by
            intro hnil
            rw [hnil] at h2
            simp at h2
          have htlsplit : tl.takeWhile (fun c => c != ']') ++
              tl.dropWhile (fun c => c != ']') = tl := List.takeWhile_append_dropWhile _ _
          cases hdW : tl.dropWhile (fun c => c != ']') with
          | nil =>
            rw [hdW, List.append_nil] at htlsplit
            rw [htlsplit] at hlt
            exact absurd hlt (lt_irrefl _)
          | cons d dtl =>
            have hd' : d = ']' := by
              have hdf := dropWhile_head_false hdW
              simpa using hdf
            have htd : t.data = tk := by rw [← ht]; rfl
            refine Or.inl ⟨n, (List.drop n cs).takeWhile isJsWs,
              (List.drop n cs).dropWhile isJsWs,
              hdecomp, hnpos, hwall, Or.inl ⟨dtl, ?_, ?_, ?_⟩⟩
            · rw [heq2, htd, ← hinner]
              congr 1
              conv_lhs => rw [← htlsplit, hdW]
              rw [hd']
            · rw [htd, ← hinner]
              exact hinne
            · rw [htd, ← hinner]
              intro c hc
              have hc2 := List.mem_takeWhile_imp hc
              simpa using hc2
        · exact absurd heq (by simp)
      · exact absurd heq (by simp)
      · -- bare arm
        rename_i hd0 tl0 hnotbr heq2
        injection heq with htk
        have htd : t.data = tk := by rw [← ht]; rfl
        have hbare0 : isBareChar hd0 = true := by
          have hws := dropWhile_head_false heq2
          have hne : hd0 ≠ '[' := hnotbr
          unfold isBareChar
          rw [hws]
          simp [hne]
        refine Or.inl ⟨n, (List.drop n cs).takeWhile isJsWs,
          (List.drop n cs).dropWhile isJsWs, hdecomp, hnpos, hwall,
          Or.inr ⟨(List.dropWhile isJsWs (List.drop n cs)).dropWhile isBareChar, ?_, ?_, ?_⟩⟩
        · rw [htd, ← htk, List.takeWhile_append_dropWhile]
        · rw [htd, ← htk, heq2, List.takeWhile_cons_of_pos hbare0]
          simp
        · intro c hc
          rw [htd, ← htk] at hc
          exact List.mem_takeWhile_imp hc
    · -- primary none: fallback
      rename_i heq
      split at h
      · rename_i hn2
        injection h with ht
        refine Or.inr ?_
        have hdropcs : cs.drop (n - 1) = '#' :: cs.drop n := by
          conv_lhs => rw [hsplit]
          rw [List.drop_append_of_le_length (by simp)]
          have hrepdrop : (List.replicate n '#').drop (n - 1) = List.replicate (n - (n - 1)) '#' := by
            simp [List.drop_replicate]
          rw [hrepdrop, show n - (n - 1) = 1 from by omega]
          rfl
        rw [← ht, hdropcs, List.takeWhile_cons_of_pos (by decide)]
        rfl
      · exact absurd h (by simp)

theorem versionOf_headingToken {line : List Char} {v : String}
    (h : versionOf line = some v) : headingToken line = some v := by
  unfold versionOf at h
  cases hh : headingToken line with
  | none => rw [hh] at h; simp at h
  | some t =>
    rw [hh] at h
    dsimp only at h
    cases hs : versionShape t with
    | false => rw [hs] at h; simp at h
    | true =>
      rw [hs] at h
      simp at h
      rw [h]

/-- Claim C4 (amended): a line is recognized as a version heading only if,
after trimming, it consists of one or more `#` characters followed by
OPTIONAL whitespace (the regex uses zero-or-more) and then either a
bracketed token or a bare non-whitespace token; in particular "#1.0.0"
with no whitespace after the `#` IS recognized, with token "1.0.0". -/
theorem c4_amended (line : List Char) (v : String) (h : versionOf line = some v) :
    versionShape v = true ∧
    (∃ n w rest, jsTrimList line = List.replicate n '#' ++ (w ++ rest) ∧ 0 < n ∧
      (∀ c ∈ w, isJsWs c = true) ∧
      ((∃ tl, rest = '[' :: (v.data ++ ']' :: tl) ∧ v.data ≠ [] ∧ ∀ c ∈ v.data, c ≠ ']') ∨
       (∃ tl, rest = v.data ++ tl ∧ v.data ≠ [] ∧ ∀ c ∈ v.data, isBareChar c = true))) ∧
    versionOf ("#1.0.0".data) = some "1.0.0" := by
  have hsh := versionOf_shape h
  have hht := versionOf_headingToken h
  refine ⟨hsh, ?_, by decide⟩
  rcases headingToken_charact hht with hgood | hhash
  · exact hgood
  · exfalso
    cases hd : v.data with
    | nil => rw [hd] at hhash; simp at hhash
    | cons c l =>
      rw [hd] at hhash
      simp at hhash
      subst hhash
      have hfalse : versionShape v = false := by
        have hv2 : v = ('#' :: l).asString := by
          conv_lhs => rw [← dataAsString v]
          rw [hd]
        rw [hv2]
        rfl
      rw [hfalse] at hsh
      exact Bool.noConfusion hsh

/-- Witness for the amended C4 at the line "## 1.0.0". -/
theorem c4_amended_witness :
    versionShape "1.0.0" = true ∧
    (∃ n w rest, jsTrimList ("## 1.0.0".data) = List.replicate n '#' ++ (w ++ rest) ∧ 0 < n ∧
      (∀ c ∈ w, isJsWs c = true) ∧
      ((∃ tl, rest = '[' :: (("1.0.0" : String).data ++ ']' :: tl) ∧
          ("1.0.0" : String).data ≠ [] ∧ ∀ c ∈ ("1.0.0" : String).data, c ≠ ']') ∨
       (∃ tl, rest = ("1.0.0" : String).data ++ tl ∧ ("1.0.0" : String).data ≠ [] ∧
          ∀ c ∈ ("1.0.0" : String).data, isBareChar c = true))) ∧
    versionOf ("#1.0.0".data) = some "1.0.0" :=
  c4_amended ("## 1.0.0".data) "1.0.0" (by decide)
